import Mathlib

/-!
Verification of the news acquisition and section-assignment pipeline
(`app/services/news_service.py`).

Shallow embedding conventions:
* Python dictionaries parsed from model JSON are embedded as structures with
  `Option String` fields (a missing key is `none`; `d.get(k, default)` is
  `field.getD default`).
* Each external model call together with its JSON decoding is abstracted as an
  `Except Unit` outcome parameter: `.error ()` stands for a network failure or
  a response whose cleaned text fails `json.loads`, `.ok v` for a successfully
  parsed structured value.  The text-level clean-up that precedes `json.loads`
  is embedded separately (`cleanupBasic`, `cleanupRelated`) on `List Char`.
* The `md5` fingerprint used by the deduplicator is modelled by the hashed
  string itself (the service only uses the digest as a set key, so an
  injective stand-in is faithful).
-/

namespace NewsService

/-- Modelled from the spec: the `NewsItem` record (`app/models/news.py` is not
part of the provided sources).  Fields follow spec section 3: category, title,
publisher, published date, url, summary, why-it-matters note and tags. -/
structure NewsItem where
  category : String
  title : String
  publisher : String
  published_date : String
  url : String
  summary : String
  why_it_matters : String
  tags : List String
deriving DecidableEq, Repr

/-- A raw article record from the search model's parsed `news` array
(a JSON object with possibly missing keys). -/
structure RawArticle where
  title : Option String
  publisher : Option String
  published_date : Option String
  url : Option String
  summary : Option String
  why_it_matters : Option String
deriving DecidableEq, Repr

/-- An entry of the title rewriter's parsed `titles` array. -/
structure TitleEntry where
  index : Option Int
  catchy_title : Option String
deriving DecidableEq, Repr

/-- A raw record from the fallback generator's parsed `news` array. -/
structure FallbackArticle where
  catchy_title : Option String
  title : Option String
  publisher : Option String
  published_date : Option String
  url : Option String
  summary : Option String
  why_it_matters : Option String
deriving DecidableEq, Repr

/-! ### Character-level string primitives

Lean's byte-indexed `String.trim`, `String.toLower` and `String.take` are
opaque to kernel reduction, so the Python string operations are embedded at
the code-point level, which is also how Python itself indexes strings. -/

/-- Whitespace test used by `strip()` and the regex class. -/
def isWs (c : Char) : Bool := c.isWhitespace

/-- Python's `str.strip()` at the character level. -/
def pyStrip (cs : List Char) : List Char :=
  ((cs.dropWhile isWs).reverse.dropWhile isWs).reverse

/-- Python's `str.strip()` on strings. -/
def pyStripStr (s : String) : String :=
  ⟨pyStrip s.data⟩

/-- Python's `str.lower()` (ASCII case folding, as in all strings the service
handles). -/
def pyLower (s : String) : String :=
  ⟨s.data.map Char.toLower⟩

/-- Python's `s[:n]` slice on strings. -/
def pySlice (s : String) (n : Nat) : String :=
  ⟨s.data.take n⟩

/-! ### Fallback generator (`_fetch_ai_generated_news`, lines 252-320) -/

/-- One item of the fallback generator's loop body: field defaults as in the
source; the item is kept only when its final title is non-empty. -/
def fallbackItem (category : String) (a : FallbackArticle) : Option NewsItem :=
  let item : NewsItem :=
    { category := category
      title := a.catchy_title.getD (a.title.getD "")
      publisher := a.publisher.getD "Industry Source"
      published_date := a.published_date.getD "2026-01-12"
      url := a.url.getD ""
      summary := a.summary.getD ""
      why_it_matters := a.why_it_matters.getD ""
      tags := [category, "digital-marketing"] }
  if item.title ≠ "" then some item else none

/-- `_fetch_ai_generated_news`: on any call or parse failure returns `[]`;
otherwise builds items from the first `num_items` records, dropping
empty-titled ones.  No URL validation happens on this path. -/
def fetch_ai_generated_news (category : String) (num_items : Nat)
    (outcome : Except Unit (List FallbackArticle)) : List NewsItem :=
  match outcome with
  | .error _ => []
  | .ok arts => (arts.take num_items).filterMap (fallbackItem category)

/-! ### Category searcher (`fetch_news_with_catchy_titles`, lines 97-250) -/

/-- Python's `url.startswith("http")`, embedded at the character level. -/
def startsWithHttp (url : String) : Bool :=
  "http".data.isPrefixOf url.data

/-- `catchy_map.get(i)`: the rewritten title stored for index `i`.  The Python
dict is built by successive assignment over entries whose `index` is `≥ 0`
(absent `index` defaults to `-1`), so a later entry with the same index wins. -/
def catchyLookup (entries : List TitleEntry) (i : Nat) : Option String :=
  match entries.reverse.find? (fun e => e.index.getD (-1) == (i : Int)) with
  | some e => some (e.catchy_title.getD "")
  | none => none

/-- The STEP-3 merge loop of `fetch_news_with_catchy_titles` (lines 214-243):
index-tracked walk over the truncated raw articles; URL gate, scheme fixing,
catchy-title substitution, empty-title drop. -/
def mergeLoop (category : String) (entries : List TitleEntry) :
    Nat → List RawArticle → List NewsItem
  | _, [] => []
  | i, a :: rest =>
    let url := pyStripStr (a.url.getD "")
    if url = "" ∨ url = "https://..." then
      mergeLoop category entries (i + 1) rest
    else
      let url := if startsWithHttp url then url else "https://" ++ url
      let catchy := (catchyLookup entries i).getD (a.title.getD "")
      let title := if catchy ≠ "" then catchy else a.title.getD ""
      let item : NewsItem :=
        { category := category
          title := title
          publisher := a.publisher.getD "Industry Source"
          published_date := a.published_date.getD "2026-01-12"
          url := url
          summary := a.summary.getD ""
          why_it_matters := a.why_it_matters.getD ""
          tags := [category, "digital-marketing"] }
      if item.title ≠ "" then item :: mergeLoop category entries (i + 1) rest
      else mergeLoop category entries (i + 1) rest

/-- `fetch_news_with_catchy_titles`: the whole body is one `try` block whose
`except` returns the fallback generator's result; inside it, an empty parsed
`news` array also returns the fallback result, and a failed title-rewrite call
or parse raises into the same `except`. -/
def fetch_news_with_catchy_titles (category : String) (num_items : Nat)
    (searchOutcome : Except Unit (List RawArticle))
    (titlesOutcome : Except Unit (List TitleEntry))
    (fallbackOutcome : Except Unit (List FallbackArticle)) : List NewsItem :=
  match searchOutcome with
  | .error _ => fetch_ai_generated_news category num_items fallbackOutcome
  | .ok raw =>
    if raw.isEmpty then fetch_ai_generated_news category num_items fallbackOutcome
    else
      match titlesOutcome with
      | .error _ => fetch_ai_generated_news category num_items fallbackOutcome
      | .ok entries => mergeLoop category entries 0 (raw.take num_items)

/-! ### Related-news searcher item construction
(`search_news_for_section`, lines 516-531) -/

/-- The per-article body of the related-news loop: the URL must be non-empty,
differ from the placeholder and start with `http`; empty-titled items are
dropped.  Items are tagged with category `related`. -/
def relatedItem (a : RawArticle) : Option NewsItem :=
  let url := pyStripStr (a.url.getD "")
  if url ≠ "" ∧ url ≠ "https://..." ∧ startsWithHttp url then
    let item : NewsItem :=
      { category := "related"
        title := a.title.getD ""
        publisher := a.publisher.getD "Industry Source"
        published_date := a.published_date.getD "2026-01-12"
        url := url
        summary := a.summary.getD ""
        why_it_matters := a.why_it_matters.getD ""
        tags := ["related", "digital-marketing"] }
    if item.title ≠ "" then some item else none
  else none

/-- The related-news item list built from a parsed `news` array. -/
def relatedItems (num_items : Nat) (raw : List RawArticle) : List NewsItem :=
  (raw.take num_items).filterMap relatedItem

/-! ### Response-text clean-up before `json.loads`

Four call sites (search, title rewrite, fallback generation, ranking) run the
same clean-up: `strip()`, then, only when the text starts with a fence, the two
substitutions removing a leading ``` (with optional `json` tag and following
whitespace) and a trailing ``` (with preceding whitespace).  The related-news
site (lines 493-502) additionally replaces the text by the match of the
DOTALL regex for a brace span — the segment from the first left brace that is
followed by a right brace up to the last right brace of the text. -/

/-- The backtick character. -/
def btick : Char := Char.ofNat 96

/-- The left-brace character. -/
def obrace : Char := Char.ofNat 123

/-- The right-brace character. -/
def cbrace : Char := Char.ofNat 125

/-- The trailing-fence substitution: when the text ends in ```, remove it and
the whitespace run before it. -/
def dropTrailingFence (t : List Char) : List Char :=
  if t.reverse.take 3 = [btick, btick, btick] then
    ((t.reverse.drop 3).dropWhile isWs).reverse
  else t

/-- Lines 150-153: when the stripped text starts with ```, remove the fence,
an optional `json` tag and following whitespace, then the trailing fence. -/
def stripFenceBlock (cs : List Char) : List Char :=
  if cs.take 3 = [btick, btick, btick] then
    let t := cs.drop 3
    let t := if t.take 4 = ['j', 's', 'o', 'n'] then t.drop 4 else t
    dropTrailingFence (t.dropWhile isWs)
  else cs

/-- The prefix of a character list up to and including its last right brace
(`none` when it has no right brace). -/
def upToLastClose : List Char → Option (List Char)
  | [] => none
  | c :: rest =>
    match upToLastClose rest with
    | some t => some (c :: t)
    | none => if c = cbrace then some [c] else none

/-- The leftmost match of the DOTALL brace-span regex: the segment from the
first left brace having a right brace after it, up to the last right brace. -/
def extractBrace : List Char → Option (List Char)
  | [] => none
  | c :: rest =>
    if c = obrace then
      match upToLastClose rest with
      | some t => some (c :: t)
      | none => extractBrace rest
    else extractBrace rest

/-- The clean-up performed at the four basic call sites. -/
def cleanupBasicL (cs : List Char) : List Char :=
  stripFenceBlock (pyStrip cs)

/-- The clean-up performed at the related-news call site: basic clean-up, then
replacement by the brace span when the regex matches. -/
def cleanupRelatedL (cs : List Char) : List Char :=
  let c := cleanupBasicL cs
  match extractBrace c with
  | some e => e
  | none => c

/-- String wrapper for the basic clean-up. -/
def cleanupBasic (s : String) : String :=
  ⟨cleanupBasicL s.data⟩

/-- String wrapper for the related-news clean-up. -/
def cleanupRelated (s : String) : String :=
  ⟨cleanupRelatedL s.data⟩

/-- A response body wrapped in a ```json code fence, as the models emit it. -/
def fenceWrap (body : List Char) : List Char :=
  btick :: btick :: btick :: 'j' :: 's' :: 'o' :: 'n' :: '\n' ::
    (body ++ '\n' :: btick :: btick :: btick :: [])

/-! ### Deduplicator (`_dedupe_items`, lines 81-95) -/

/-- The title fingerprint: `item.title.lower().strip()[:50]` (the md5 digest of
this string in the source; the digest is only used as a set key, so the string
itself models it). -/
def fingerprint (item : NewsItem) : String :=
  pySlice (pyStripStr (pyLower item.title)) 50

/-- The dedupe loop with its `seen_hashes` set threaded explicitly. -/
def dedupeAux (seen : List String) : List NewsItem → List NewsItem
  | [] => []
  | x :: xs =>
    if fingerprint x ∈ seen then dedupeAux seen xs
    else x :: dedupeAux (fingerprint x :: seen) xs

/-- `_dedupe_items`. -/
def dedupe_items (items : List NewsItem) : List NewsItem :=
  dedupeAux [] items

/-! ### Section assigner (`rank_and_assign_to_sections`, lines 332-406,
and `_simple_distribution`, lines 408-419) -/

/-- One section's index filter (inner loop of lines 397-400): keep an index if
it is an integer (a `none` stands for a non-integer JSON value dropped by
`isinstance`), in range, and not already consumed; consumed indices are added
to `used`.  Returns the kept indices and the grown used-set. -/
def claimIndices (n : Nat) : List (Option Int) → List Nat → List Nat × List Nat
  | [], used => ([], used)
  | none :: rest, used => claimIndices n rest used
  | some i :: rest, used =>
    if 0 ≤ i ∧ i < (n : Int) ∧ i.toNat ∉ used then
      let r := claimIndices n rest (i.toNat :: used)
      (i.toNat :: r.1, r.2)
    else claimIndices n rest used

/-- The outer loop of lines 395-400 at the index level: each parsed assignment
key produces one output entry, with `used_indices` threaded left to right. -/
def assignSections (n : Nat) :
    List (String × List (Option Int)) → List Nat → List (String × List Nat)
  | [], _ => []
  | (k, idxs) :: rest, used =>
    let r := claimIndices n idxs used
    (k, r.1) :: assignSections n rest r.2

/-- The used-set after processing a prefix of the assignments. -/
def usedAfter (n : Nat) :
    List (String × List (Option Int)) → List Nat → List Nat
  | [], used => used
  | (_, idxs) :: rest, used => usedAfter n rest (claimIndices n idxs used).2

/-- The LLM-ranking path's `section_items` map: kept indices resolved to the
items at those positions of the flattened list. -/
def assignSectionsItems (all_items : List NewsItem)
    (assignments : List (String × List (Option Int))) :
    List (String × List NewsItem) :=
  (assignSections all_items.length assignments []).map
    (fun kp => (kp.1, kp.2.filterMap (fun i => all_items[i]?)))

/-- `_simple_distribution`: fixed slices guarded by length tests, exactly as in
the source (`items[:1]`, `items[1:2]`, `items[2:3]`, `items[3:5]`,
`items[5:8]`, `items[8:11]`). -/
def simple_distribution (items : List α) : List (String × List α) :=
  [("main-story", if items.length > 0 then items.take 1 else []),
   ("main-story-summary", if items.length > 0 then items.take 1 else []),
   ("second-story", if items.length > 1 then (items.drop 1).take 1 else []),
   ("third-story", if items.length > 2 then (items.drop 2).take 1 else []),
   ("trendsetter", if items.length > 3 then (items.drop 3).take 2 else []),
   ("top-news", if items.length > 5 then (items.drop 5).take 3 else []),
   ("links", if items.length > 8 then (items.drop 8).take 3 else [])]

/-- `rank_and_assign_to_sections`: flatten the per-category map; on an empty
flattened list return the empty map at once; otherwise use the ranking model's
parsed `assignments` object, falling back to `_simple_distribution` on any
call or parse failure. -/
def rank_and_assign_to_sections (all_news : List (String × List NewsItem))
    (outcome : Except Unit (List (String × List (Option Int)))) :
    List (String × List NewsItem) :=
  let all_items := (all_news.map Prod.snd).flatten
  if all_items.isEmpty then []
  else
    match outcome with
    | .ok assignments => assignSectionsItems all_items assignments
    | .error _ => simple_distribution all_items

/-!
## Theorems
-/

/-- The keys of the assigner's output are the parsed assignment keys, in order. -/
theorem assignSections_map_fst (n : Nat)
    (asg : List (String × List (Option Int))) (used : List Nat) :
    (assignSections n asg used).map Prod.fst = asg.map Prod.fst := by
  induction asg generalizing used with
  | nil => rfl
  | cons kp rest ih =>
    obtain ⟨k, idxs⟩ := kp
    simp [assignSections, ih]

/-- C8: when the search model's response parses to an empty `news` array, the
category searcher returns exactly the fallback generator's result for the same
category and count, and a failed search call or parse likewise yields the
fallback generator's result rather than an exception. -/
theorem fetch_empty_news_equals_fallback (category : String) (num_items : Nat)
    (titlesOutcome : Except Unit (List TitleEntry))
    (fallbackOutcome : Except Unit (List FallbackArticle)) :
    fetch_news_with_catchy_titles category num_items (.ok []) titlesOutcome
        fallbackOutcome
      = fetch_ai_generated_news category num_items fallbackOutcome ∧
    fetch_news_with_catchy_titles category num_items (.error ()) titlesOutcome
        fallbackOutcome
      = fetch_ai_generated_news category num_items fallbackOutcome :=
  ⟨rfl, rfl⟩

/-- C1 counterexample: one search article with a verified URL, the title
rewrite response fails to parse.  The claim predicts the search-derived item
with its original title; the code instead discards the search result and
returns the fallback generator's answer (here `[]`). -/
theorem title_parse_failure_counterexample :
    fetch_news_with_catchy_titles "seo" 4
        (.ok [⟨some "Original Headline", some "SEJ", some "2026-01-10",
               some "https://example.com/a", some "sum", some "why"⟩])
        (.error ()) (.ok []) = [] ∧
    mergeLoop "seo" []
        0 [⟨some "Original Headline", some "SEJ", some "2026-01-10",
            some "https://example.com/a", some "sum", some "why"⟩]
      = [⟨"seo", "Original Headline", "SEJ", "2026-01-10",
          "https://example.com/a", "sum", "why", ["seo", "digital-marketing"]⟩] ∧
    ([] : List NewsItem)
      ≠ [⟨"seo", "Original Headline", "SEJ", "2026-01-10",
          "https://example.com/a", "sum", "why", ["seo", "digital-marketing"]⟩] := by
  refine ⟨rfl, by decide, by decide⟩

/-- C1 amended: whenever the title-rewrite call fails or its response fails to
parse, the category searcher returns the fallback generator's result — the
exception does not propagate, but the verified search items are discarded
rather than returned with their original titles. -/
theorem title_parse_failure_falls_back (category : String) (num_items : Nat)
    (raw : List RawArticle) (fallbackOutcome : Except Unit (List FallbackArticle)) :
    fetch_news_with_catchy_titles category num_items (.ok raw) (.error ())
        fallbackOutcome
      = fetch_ai_generated_news category num_items fallbackOutcome := by
  unfold fetch_news_with_catchy_titles
  split
  · rfl
  · split <;> rfl

/-- C4 counterexample: on an input map whose flattened item list is empty the
section assigner returns the empty map — `main-story` (and every other fixed
key) is absent, contradicting the claim that all seven keys appear. -/
theorem assign_empty_counterexample :
    rank_and_assign_to_sections [] (.ok []) = [] ∧
    "main-story" ∉ (rank_and_assign_to_sections [] (.ok [])).map Prod.fst := by
  exact ⟨rfl, by decide⟩

/-- C4 amended: on an input whose flattened item list is empty the section
assigner returns the empty map (no keys at all) and never raises; the
deterministic fallback `_simple_distribution` itself, on an empty list, does
return all seven fixed section keys mapped to empty sequences. -/
theorem assign_empty_returns_empty_map
    (all_news : List (String × List NewsItem))
    (outcome : Except Unit (List (String × List (Option Int))))
    (h : (all_news.map Prod.snd).flatten = []) :
    rank_and_assign_to_sections all_news outcome = [] ∧
    simple_distribution ([] : List NewsItem)
      = [("main-story", []), ("main-story-summary", []), ("second-story", []),
         ("third-story", []), ("trendsetter", []), ("top-news", []),
         ("links", [])] := by
  refine ⟨?_, rfl⟩
  unfold rank_and_assign_to_sections
  simp [h]

/-- Witness for the amended C4 at a concrete input with an empty category. -/
theorem assign_empty_returns_empty_map_witness :
    rank_and_assign_to_sections [("seo", [])] (.error ()) = [] ∧
    simple_distribution ([] : List NewsItem)
      = [("main-story", []), ("main-story-summary", []), ("second-story", []),
         ("third-story", []), ("trendsetter", []), ("top-news", []),
         ("links", [])] :=
  assign_empty_returns_empty_map [("seo", [])] (.error ()) (by decide)

/-- C9: in the LLM-ranking path (nonempty flattened input, parsed assignments
object available) the keys of the returned map are exactly the keys of the
parsed assignments object, in iteration order — fixed section keys absent from
the model's output are absent from the result, and foreign keys are kept. -/
theorem ranked_keys_match_assignments
    (all_news : List (String × List NewsItem))
    (assignments : List (String × List (Option Int)))
    (h : (all_news.map Prod.snd).flatten ≠ []) :
    (rank_and_assign_to_sections all_news (.ok assignments)).map Prod.fst
      = assignments.map Prod.fst := by
  unfold rank_and_assign_to_sections
  simp only [List.isEmpty_iff, h, if_false, assignSectionsItems, List.map_map]
  simpa using assignSections_map_fst _ assignments []

/-- Witness for C9: one item, an assignments object omitting six fixed keys
and containing a foreign key. -/
theorem ranked_keys_match_assignments_witness :
    (rank_and_assign_to_sections
        [("seo", [⟨"seo", "A", "P", "2026-01-10", "https://e.com", "s", "w",
                   ["seo", "digital-marketing"]⟩])]
        (.ok [("weird-key", [some 0]), ("links", [])])).map Prod.fst
      = ["weird-key", "links"] :=
  ranked_keys_match_assignments
    [("seo", [⟨"seo", "A", "P", "2026-01-10", "https://e.com", "s", "w",
               ["seo", "digital-marketing"]⟩])]
    [("weird-key", [some 0]), ("links", [])] (by decide)

/-- The dedupe loop returns a subsequence of its input. -/
theorem dedupeAux_sublist (seen : List String) (xs : List NewsItem) :
    (dedupeAux seen xs).Sublist xs := by
  induction xs generalizing seen with
  | nil => simp [dedupeAux]
  | cons x xs ih =>
    simp only [dedupeAux]
    split
    · exact (ih seen).cons x
    · exact (ih _).cons₂ x

/-- No item surviving the dedupe loop has a fingerprint in the seen set. -/
theorem dedupeAux_not_seen {seen : List String} {xs : List NewsItem}
    {y : NewsItem} (hy : y ∈ dedupeAux seen xs) : fingerprint y ∉ seen := by
  induction xs generalizing seen with
  | nil => simp [dedupeAux] at hy
  | cons x xs ih =>
    simp only [dedupeAux] at hy
    split at hy
    · exact ih hy
    · rcases List.mem_cons.1 hy with rfl | hy
      · assumption
      · exact fun h => ih hy (List.mem_cons_of_mem _ h)

/-- The fingerprints of the dedupe loop's output are pairwise distinct. -/
theorem dedupeAux_map_nodup (seen : List String) (xs : List NewsItem) :
    ((dedupeAux seen xs).map fingerprint).Nodup := by
  induction xs generalizing seen with
  | nil => simp [dedupeAux]
  | cons x xs ih =>
    simp only [dedupeAux]
    split
    · exact ih seen
    · simp only [List.map_cons, List.nodup_cons]
      refine ⟨?_, ih _⟩
      intro hmem
      obtain ⟨y, hy, hfy⟩ := List.mem_map.1 hmem
      exact dedupeAux_not_seen hy (hfy ▸ List.mem_cons_self _ _)

/-- The dedupe loop only inspects the seen set through membership. -/
theorem dedupeAux_congr {s₁ s₂ : List String} (h : ∀ a, a ∈ s₁ ↔ a ∈ s₂)
    (xs : List NewsItem) : dedupeAux s₁ xs = dedupeAux s₂ xs := by
  induction xs generalizing s₁ s₂ with
  | nil => rfl
  | cons x xs ih =>
    simp only [dedupeAux]
    by_cases hx : fingerprint x ∈ s₁
    · rw [if_pos hx, if_pos ((h _).1 hx)]
      exact ih h
    · rw [if_neg hx, if_neg (fun c => hx ((h _).2 c))]
      congr 1
      exact ih (fun a => by simp [List.mem_cons, h a])

/-- Seeding the seen set with one fingerprint is the same as filtering all
items carrying that fingerprint out of the input. -/
theorem dedupeAux_cons_seen (s : String) (seen : List String)
    (xs : List NewsItem) :
    dedupeAux (s :: seen) xs
      = dedupeAux seen (xs.filter (fun y => fingerprint y != s)) := by
  induction xs generalizing seen with
  | nil => rfl
  | cons x xs ih =>
    rw [List.filter_cons]
    by_cases hxs : fingerprint x = s
    · rw [if_neg (by simp [hxs])]
      simp only [dedupeAux]
      rw [if_pos (by simp [hxs])]
      exact ih seen
    · rw [if_pos (by simp [hxs])]
      simp only [dedupeAux]
      by_cases hx : fingerprint x ∈ seen
      · rw [if_pos (List.mem_cons_of_mem _ hx), if_pos hx]
        exact ih seen
      · rw [if_neg (by simp [List.mem_cons, hxs, hx]), if_neg hx]
        congr 1
        calc dedupeAux (fingerprint x :: s :: seen) xs
            = dedupeAux (s :: fingerprint x :: seen) xs :=
              dedupeAux_congr (fun a => by simp only [List.mem_cons]; tauto) xs

          _ = dedupeAux (fingerprint x :: seen)
                (xs.filter (fun y => fingerprint y != s)) :=
              ih (fingerprint x :: seen)

/-- C6: the deduplicator returns an order-preserving subsequence of its input,
its output contains no two items whose case-folded, trimmed 50-character title
prefixes agree, and it keeps the first item of each fingerprint while dropping
every later item with the same fingerprint. -/
theorem dedupe_items_spec (items : List NewsItem) :
    (dedupe_items items).Sublist items ∧
    ((dedupe_items items).map fingerprint).Nodup ∧
    ∀ (x : NewsItem) (xs : List NewsItem),
      dedupe_items (x :: xs)
        = x :: dedupe_items (xs.filter (fun y => fingerprint y != fingerprint x)) := by
  refine ⟨dedupeAux_sublist [] items, dedupeAux_map_nodup [] items, ?_⟩
  intro x xs
  simp only [dedupe_items, dedupeAux]
  rw [if_neg (List.not_mem_nil _)]
  congr 1
  exact dedupeAux_cons_seen (fingerprint x) [] xs

/-- A string extended by the `https://` scheme is never empty. -/
theorem https_append_ne_empty (s : String) : "https://" ++ s ≠ "" := by
  intro heq
  have h := congrArg String.data heq
  simp [String.data_append] at h

/-- A string extended by the `https://` scheme starts with `http`. -/
theorem startsWithHttp_https_append (s : String) :
    startsWithHttp ("https://" ++ s) = true := by
  have h : ("https://" : String) = "http" ++ "s://" := rfl
  rw [h, String.append_assoc]
  simp only [startsWithHttp, String.data_append]
  simp [List.isPrefixOf_iff_prefix]

/-- Every item kept by the merge loop has a non-empty URL starting with
`http`: the guard rejects empty and placeholder URLs, and a kept URL either
already starts with `http` or receives the `https://` scheme. -/
theorem mergeLoop_url_gate (category : String) (entries : List TitleEntry)
    (i : Nat) (raw : List RawArticle) (item : NewsItem)
    (h : item ∈ mergeLoop category entries i raw) :
    item.url ≠ "" ∧ startsWithHttp item.url = true := by
  induction raw generalizing i with
  | nil => simp [mergeLoop] at h
  | cons a rest ih =>
    simp only [mergeLoop] at h
    split at h
    · exact ih _ h
    · rename_i hgate
      push_neg at hgate
      split at h
      · split at h
        · rename_i hsw
          rcases List.mem_cons.1 h with rfl | h
          · exact ⟨hgate.1, hsw⟩
          · exact ih _ h
        · rcases List.mem_cons.1 h with rfl | h
          · exact ⟨https_append_ne_empty _, startsWithHttp_https_append _⟩
          · exact ih _ h
      · split at h
        · split at h
          · rename_i hsw
            rcases List.mem_cons.1 h with rfl | h
            · exact ⟨hgate.1, hsw⟩
            · exact ih _ h
          · rcases List.mem_cons.1 h with rfl | h
            · exact ⟨https_append_ne_empty _, startsWithHttp_https_append _⟩
            · exact ih _ h
        · exact ih _ h

/-- C3 counterexample: the search response parses to an empty `news` array, so
the category searcher takes its internal fallback path; the fallback article
carries no `url` key, and the returned item has `url = ""` — an empty-URL item
in the category searcher's output. -/
theorem url_gate_counterexample :
    fetch_news_with_catchy_titles "seo" 4 (.ok []) (.ok [])
        (.ok [⟨some "Fallback Story", none, none, none, none, none, none⟩])
      = [⟨"seo", "Fallback Story", "Industry Source", "2026-01-12", "", "", "",
          ["seo", "digital-marketing"]⟩] := by
  decide

/-- C3 amended: on the search path (nonempty parsed `news` array and a parsed
title-rewrite response) every returned item has a non-empty URL that starts
with `http`; the raw URL gate rejects empty and placeholder values before the
scheme is fixed up.  Items produced by the internal fallback path do not pass
any URL validation. -/
theorem search_path_url_gate (category : String) (num_items : Nat)
    (raw : List RawArticle) (entries : List TitleEntry)
    (fallbackOutcome : Except Unit (List FallbackArticle)) (item : NewsItem)
    (hraw : raw ≠ [])
    (hmem : item ∈ fetch_news_with_catchy_titles category num_items (.ok raw)
        (.ok entries) fallbackOutcome) :
    item.url ≠ "" ∧ startsWithHttp item.url = true := by
  have hne : raw.isEmpty = false := by simp [List.isEmpty_iff, hraw]
  simp only [fetch_news_with_catchy_titles, hne, Bool.false_eq_true,
    if_false] at hmem
  exact mergeLoop_url_gate category entries 0 _ item hmem

/-- Witness for the amended C3: a schemeless raw URL is kept and prefixed. -/
theorem search_path_url_gate_witness :
    (⟨"seo", "T", "Industry Source", "2026-01-12", "https://example.com", "",
      "", ["seo", "digital-marketing"]⟩ : NewsItem).url ≠ "" ∧
    startsWithHttp (⟨"seo", "T", "Industry Source", "2026-01-12",
      "https://example.com", "", "", ["seo", "digital-marketing"]⟩ : NewsItem).url
      = true :=
  search_path_url_gate "seo" 4
    [⟨some "T", none, none, some "example.com ", none, none⟩] [] (.ok [])
    ⟨"seo", "T", "Industry Source", "2026-01-12", "https://example.com", "", "",
     ["seo", "digital-marketing"]⟩
    (by decide) (by decide)

/-- Every item kept by the merge loop has a non-empty title. -/
theorem mergeLoop_title_nonempty (category : String) (entries : List TitleEntry)
    (i : Nat) (raw : List RawArticle) (item : NewsItem)
    (h : item ∈ mergeLoop category entries i raw) : item.title ≠ "" := by
  induction raw generalizing i with
  | nil => simp [mergeLoop] at h
  | cons a rest ih =>
    simp only [mergeLoop] at h
    split at h
    · exact ih _ h
    · split at h
      · rename_i hcat
        split at h
        · rcases List.mem_cons.1 h with rfl | h
          · exact hcat
          · exact ih _ h
        · rcases List.mem_cons.1 h with rfl | h
          · exact hcat
          · exact ih _ h
      · split at h
        · rename_i htitle
          split at h
          · rcases List.mem_cons.1 h with rfl | h
            · exact htitle
            · exact ih _ h
          · rcases List.mem_cons.1 h with rfl | h
            · exact htitle
            · exact ih _ h
        · exact ih _ h

/-- A fallback article accepted by the loop body has a non-empty title. -/
theorem fallbackItem_title_nonempty {category : String} {a : FallbackArticle}
    {item : NewsItem} (h : fallbackItem category a = some item) :
    item.title ≠ "" := by
  simp only [fallbackItem] at h
  split at h
  · rename_i ht
    injection h with h
    subst h
    exact ht
  · exact Option.noConfusion h

/-- Every item of the fallback generator's output has a non-empty title. -/
theorem fetch_ai_title_nonempty (category : String) (num_items : Nat)
    (outcome : Except Unit (List FallbackArticle)) (item : NewsItem)
    (h : item ∈ fetch_ai_generated_news category num_items outcome) :
    item.title ≠ "" := by
  cases outcome with
  | error e => simp [fetch_ai_generated_news] at h
  | ok arts =>
    simp only [fetch_ai_generated_news] at h
    obtain ⟨a, _, ha⟩ := List.mem_filterMap.1 h
    exact fallbackItem_title_nonempty ha

/-- A related-news article accepted by the loop body has a non-empty title. -/
theorem relatedItem_title_nonempty {a : RawArticle} {item : NewsItem}
    (h : relatedItem a = some item) : item.title ≠ "" := by
  simp only [relatedItem] at h
  split at h
  · split at h
    · rename_i ht
      injection h with h
      subst h
      exact ht
    · exact Option.noConfusion h
  · exact Option.noConfusion h

/-- C10: every NewsItem produced by any creation path — the category searcher
(both its search and fallback branches), the fallback generator, and the
related-news search — has a non-empty title; empty-titled candidates are
silently dropped. -/
theorem nonempty_title_invariant :
    (∀ (category : String) (num_items : Nat)
        (searchOutcome : Except Unit (List RawArticle))
        (titlesOutcome : Except Unit (List TitleEntry))
        (fallbackOutcome : Except Unit (List FallbackArticle)) (item : NewsItem),
        item ∈ fetch_news_with_catchy_titles category num_items searchOutcome
            titlesOutcome fallbackOutcome → item.title ≠ "") ∧
    (∀ (category : String) (num_items : Nat)
        (outcome : Except Unit (List FallbackArticle)) (item : NewsItem),
        item ∈ fetch_ai_generated_news category num_items outcome →
        item.title ≠ "") ∧
    (∀ (num_items : Nat) (raw : List RawArticle) (item : NewsItem),
        item ∈ relatedItems num_items raw → item.title ≠ "") := by
  refine ⟨?_, ?_, ?_⟩
  · intro category num_items searchOutcome titlesOutcome fallbackOutcome item h
    cases searchOutcome with
    | error e => exact fetch_ai_title_nonempty _ _ _ _ h
    | ok raw =>
      cases titlesOutcome with
      | error e =>
        simp only [fetch_news_with_catchy_titles] at h
        split at h
        · exact fetch_ai_title_nonempty _ _ _ _ h
        · exact fetch_ai_title_nonempty _ _ _ _ h
      | ok entries =>
        simp only [fetch_news_with_catchy_titles] at h
        split at h
        · exact fetch_ai_title_nonempty _ _ _ _ h
        · exact mergeLoop_title_nonempty _ _ _ _ _ h
  · intro category num_items outcome item h
    exact fetch_ai_title_nonempty _ _ _ _ h
  · intro num_items raw item h
    obtain ⟨a, _, ha⟩ := List.mem_filterMap.1 h
    exact relatedItem_title_nonempty ha

/-- Witness for C10 on the fallback-generation path. -/
theorem nonempty_title_invariant_witness :
    (⟨"seo", "Fallback Story", "Industry Source", "2026-01-12", "", "", "",
      ["seo", "digital-marketing"]⟩ : NewsItem).title ≠ "" :=
  nonempty_title_invariant.2.1 "seo" 4
    (.ok [⟨some "Fallback Story", none, none, none, none, none, none⟩])
    ⟨"seo", "Fallback Story", "Industry Source", "2026-01-12", "", "", "",
     ["seo", "digital-marketing"]⟩ (by decide)

/-- The grown used-set holds exactly the kept indices and the old used-set. -/
theorem claimIndices_used_iff (n : Nat) (idxs : List (Option Int))
    (used : List Nat) (j : Nat) :
    j ∈ (claimIndices n idxs used).2
      ↔ j ∈ (claimIndices n idxs used).1 ∨ j ∈ used := by
  induction idxs generalizing used with
  | nil => simp [claimIndices]
  | cons o rest ih =>
    cases o with
    | none => simpa [claimIndices] using ih used
    | some i =>
      simp only [claimIndices]
      split
      · dsimp only
        rw [ih (Int.toNat i :: used)]
        simp only [List.mem_cons]
        tauto
      · exact ih used

/-- The kept indices of one section are pairwise distinct and disjoint from
the incoming used-set. -/
theorem claimIndices_nodup (n : Nat) (idxs : List (Option Int))
    (used : List Nat) :
    (claimIndices n idxs used).1.Nodup ∧
    (∀ j ∈ (claimIndices n idxs used).1, j ∉ used) := by
  induction idxs generalizing used with
  | nil => simp [claimIndices]
  | cons o rest ih =>
    cases o with
    | none => simpa [claimIndices] using ih used
    | some i =>
      simp only [claimIndices]
      split
      · rename_i hc
        dsimp only
        obtain ⟨hnd, hfr⟩ := ih (Int.toNat i :: used)
        refine ⟨List.nodup_cons.2
          ⟨fun hmem => (hfr _ hmem) (List.mem_cons_self _ _), hnd⟩, ?_⟩
        intro j hj
        rcases List.mem_cons.1 hj with rfl | hj
        · exact hc.2.2
        · exact fun hu => hfr _ hj (List.mem_cons_of_mem _ hu)
      · exact ih used

/-- A kept index was listed in the section, is in range, and was free. -/
theorem claimIndices_valid (n : Nat) (idxs : List (Option Int))
    (used : List Nat) (j : Nat) (hj : j ∈ (claimIndices n idxs used).1) :
    some (j : Int) ∈ idxs ∧ j < n ∧ j ∉ used := by
  induction idxs generalizing used with
  | nil => simp [claimIndices] at hj
  | cons o rest ih =>
    cases o with
    | none =>
      simp only [claimIndices] at hj
      obtain ⟨h1, h2, h3⟩ := ih used hj
      exact ⟨List.mem_cons_of_mem _ h1, h2, h3⟩
    | some i =>
      simp only [claimIndices] at hj
      split at hj
      · rename_i hc
        rcases List.mem_cons.1 hj with rfl | hj
        · refine ⟨?_, ?_, hc.2.2⟩
          · have : (Int.toNat i : Int) = i := Int.toNat_of_nonneg hc.1
            rw [this]
            exact List.mem_cons_self _ _
          · exact_mod_cast (Int.toNat_of_nonneg hc.1) ▸ hc.2.1
        · obtain ⟨h1, h2, h3⟩ := ih (Int.toNat i :: used) hj
          exact ⟨List.mem_cons_of_mem _ h1, h2,
            fun hu => h3 (List.mem_cons_of_mem _ hu)⟩
      · obtain ⟨h1, h2, h3⟩ := ih used hj
        exact ⟨List.mem_cons_of_mem _ h1, h2, h3⟩

/-- The indices kept across all sections are pairwise distinct and disjoint
from the incoming used-set. -/
theorem assignSections_flatten_nodup (n : Nat)
    (asg : List (String × List (Option Int))) (used : List Nat) :
    (((assignSections n asg used).map Prod.snd).flatten).Nodup ∧
    (∀ j ∈ ((assignSections n asg used).map Prod.snd).flatten, j ∉ used) := by
  induction asg generalizing used with
  | nil => simp [assignSections]
  | cons kp rest ih =>
    obtain ⟨k, idxs⟩ := kp
    simp only [assignSections, List.map_cons, List.flatten_cons]
    obtain ⟨hnd1, hfr1⟩ := claimIndices_nodup n idxs used
    obtain ⟨hnd2, hfr2⟩ := ih (claimIndices n idxs used).2
    refine ⟨List.nodup_append.2 ⟨hnd1, hnd2, ?_⟩, ?_⟩
    · intro j hj1 hj2
      exact hfr2 _ hj2 ((claimIndices_used_iff n idxs used j).2 (Or.inl hj1))
    · intro j hj
      rcases List.mem_append.1 hj with hj | hj
      · exact hfr1 _ hj
      · exact fun hu =>
          hfr2 _ hj ((claimIndices_used_iff n idxs used j).2 (Or.inr hu))

/-- A length guard around a slice is redundant: past the length the slice is
empty anyway. -/
theorem slice_guard (xs : List α) (a b : Nat) :
    (if xs.length > a then (xs.drop a).take b else []) = (xs.drop a).take b := by
  split
  · rfl
  · rename_i h
    rw [List.drop_eq_nil_iff.2 (by omega), List.take_nil]

/-- `_simple_distribution` written with its length guards removed. -/
theorem simple_distribution_eq (xs : List α) :
    simple_distribution xs =
      [("main-story", xs.take 1),
       ("main-story-summary", xs.take 1),
       ("second-story", (xs.drop 1).take 1),
       ("third-story", (xs.drop 2).take 1),
       ("trendsetter", (xs.drop 3).take 2),
       ("top-news", (xs.drop 5).take 3),
       ("links", (xs.drop 8).take 3)] := by
  have h0 := slice_guard xs 0 1
  rw [List.drop_zero] at h0
  simp only [simple_distribution, h0, slice_guard]

/-- Splitting a take at an intermediate point. -/
theorem take_add_split (l : List α) (m n : Nat) :
    l.take (m + n) = l.take m ++ (l.drop m).take n := by
  have h := List.take_append_drop m (l.take (m + n))
  rw [List.take_take, min_eq_left (by omega), ← List.take_drop] at h
  exact h.symm

/-- Two adjacent slices merge into one. -/
theorem slice_merge (l : List α) (a b c : Nat) :
    (l.drop a).take b ++ (l.drop (a + b)).take c = (l.drop a).take (b + c) := by
  rw [take_add_split (l.drop a) b c, List.drop_drop]

/-- With the `main-story-summary` entry removed, the deterministic fallback's
sections cover exactly the first eleven items, once each. -/
theorem fallback_flatten (xs : List α) :
    ((((simple_distribution xs).eraseIdx 1).map Prod.snd).flatten)
      = xs.take 11 := by
  rw [simple_distribution_eq]
  simp only [List.eraseIdx, List.map_cons, List.map_nil, List.flatten_cons,
    List.flatten_nil, List.append_nil]
  have e1 : (xs.drop 5).take 3 ++ (xs.drop 8).take 3 = (xs.drop 5).take 6 := by
    simpa using slice_merge xs 5 3 3
  have e2 : (xs.drop 3).take 2 ++ (xs.drop 5).take 6 = (xs.drop 3).take 8 := by
    simpa using slice_merge xs 3 2 6
  have e3 : (xs.drop 2).take 1 ++ (xs.drop 3).take 8 = (xs.drop 2).take 9 := by
    simpa using slice_merge xs 2 1 8
  have e4 : (xs.drop 1).take 1 ++ (xs.drop 2).take 9 = (xs.drop 1).take 10 := by
    simpa using slice_merge xs 1 1 9
  have e5 : xs.take 1 ++ (xs.drop 1).take 10 = xs.take 11 := by
    simpa using (take_add_split xs 1 10).symm
  rw [e1, e2, e3, e4, e5]

/-- C2 counterexample: with a single fetched item and a failed ranking call,
the deterministic fallback places the item in both `main-story` and
`main-story-summary`, so the item multiset across sections has a duplicate. -/
theorem assignment_uniqueness_counterexample :
    rank_and_assign_to_sections
        [("seo", [⟨"seo", "Only Story", "P", "2026-01-10", "https://e.com",
                   "s", "w", ["seo", "digital-marketing"]⟩])] (.error ())
      = [("main-story", [⟨"seo", "Only Story", "P", "2026-01-10",
            "https://e.com", "s", "w", ["seo", "digital-marketing"]⟩]),
         ("main-story-summary", [⟨"seo", "Only Story", "P", "2026-01-10",
            "https://e.com", "s", "w", ["seo", "digital-marketing"]⟩]),
         ("second-story", []), ("third-story", []), ("trendsetter", []),
         ("top-news", []), ("links", [])] ∧
    ¬ ((((rank_and_assign_to_sections
        [("seo", [⟨"seo", "Only Story", "P", "2026-01-10", "https://e.com",
                   "s", "w", ["seo", "digital-marketing"]⟩])] (.error ())).map
          Prod.snd).flatten).Nodup) := by
  exact ⟨by decide, by decide⟩

/-- C2 amended: in the LLM-ranking path the used-index set makes the kept
indices globally duplicate-free; in the deterministic fallback the only
duplication is the first item appearing in both `main-story` and
`main-story-summary` (the summary deliberately reuses the main story) — with
the `main-story-summary` entry removed, the fallback's sections are pairwise
disjoint slices. -/
theorem assignment_uniqueness_amended :
    (∀ (n : Nat) (asg : List (String × List (Option Int))),
        (((assignSections n asg []).map Prod.snd).flatten).Nodup) ∧
    (∀ (xs : List Nat), xs.Nodup →
        ((((simple_distribution xs).eraseIdx 1).map Prod.snd).flatten).Nodup) ∧
    (∀ (xs : List NewsItem),
        (simple_distribution xs)[1]?.map Prod.snd
          = (simple_distribution xs)[0]?.map Prod.snd) := by
  refine ⟨fun n asg => (assignSections_flatten_nodup n asg []).1, ?_,
    fun xs => rfl⟩
  intro xs hnd
  rw [fallback_flatten]
  exact List.Nodup.sublist (List.take_sublist _ _) hnd

/-- Witness for the amended C2 at concrete inputs. -/
theorem assignment_uniqueness_amended_witness :
    ((((simple_distribution [0, 1, 2]).eraseIdx 1).map Prod.snd).flatten).Nodup :=
  assignment_uniqueness_amended.2.1 [0, 1, 2] (by decide)

/-- A listed, in-range, free index is kept by its section. -/
theorem claimIndices_mem (n : Nat) (idxs : List (Option Int)) (used : List Nat)
    (i : Int) (hmem : some i ∈ idxs) (hge : 0 ≤ i) (hlt : i < (n : Int))
    (hfree : i.toNat ∉ used) :
    i.toNat ∈ (claimIndices n idxs used).1 := by
  induction idxs generalizing used with
  | nil => simp at hmem
  | cons o rest ih =>
    cases o with
    | none =>
      simp only [claimIndices]
      rcases List.mem_cons.1 hmem with h | h
      · exact absurd h (by simp)
      · exact ih used h hfree
    | some j =>
      rcases List.mem_cons.1 hmem with h | h
      · injection h with h
        subst h
        simp only [claimIndices]
        rw [if_pos ⟨hge, hlt, hfree⟩]
        exact List.mem_cons_self _ _
      · simp only [claimIndices]
        split
        · rename_i hc
          dsimp only
          by_cases hij : i.toNat = j.toNat
          · rw [hij]
            exact List.mem_cons_self _ _
          · refine List.mem_cons_of_mem _ (ih (j.toNat :: used) h ?_)
            simp only [List.mem_cons]
            rintro (hcontra | hcontra)
            · exact hij hcontra
            · exact hfree hcontra
        · exact ih used h hfree

/-- Processing a concatenation of assignment lists splits into two runs with
the used-set threaded between them. -/
theorem assignSections_append (n : Nat)
    (a b : List (String × List (Option Int))) (used : List Nat) :
    assignSections n (a ++ b) used
      = assignSections n a used ++ assignSections n b (usedAfter n a used) := by
  induction a generalizing used with
  | nil => simp [assignSections, usedAfter]
  | cons kp rest ih =>
    obtain ⟨k, idxs⟩ := kp
    simp [assignSections, usedAfter, ih]

/-- The assigner emits one output entry per parsed assignment key. -/
theorem assignSections_length (n : Nat)
    (asg : List (String × List (Option Int))) (used : List Nat) :
    (assignSections n asg used).length = asg.length := by
  induction asg generalizing used with
  | nil => rfl
  | cons kp rest ih =>
    obtain ⟨k, idxs⟩ := kp
    simp [assignSections, ih]

/-- C5: when the same in-range index is listed under an earlier and a later
section of the parsed assignments object and is still unconsumed when the
earlier section is processed, the earlier section keeps it, and it occurs
exactly once across the whole output — the later claim is dropped; moreover
every kept index was listed by its section, is in range, and was unconsumed
(out-of-range, non-integer and already-consumed indices are dropped). -/
theorem first_claim_wins (n : Nat)
    (pre mid post : List (String × List (Option Int))) (k1 k2 : String)
    (idxs1 idxs2 : List (Option Int)) (i : Int)
    (h1 : some i ∈ idxs1) (h2 : some i ∈ idxs2)
    (hge : 0 ≤ i) (hlt : i < (n : Int))
    (hfree : i.toNat ∉ usedAfter n pre []) :
    (assignSections n (pre ++ ((k1, idxs1) :: (mid ++ (k2, idxs2) :: post)))
        [])[pre.length]?
      = some (k1, (claimIndices n idxs1 (usedAfter n pre [])).1) ∧
    i.toNat ∈ (claimIndices n idxs1 (usedAfter n pre [])).1 ∧
    ((((assignSections n (pre ++ ((k1, idxs1) :: (mid ++ (k2, idxs2) :: post)))
        []).map Prod.snd).flatten).count i.toNat) = 1 ∧
    (∀ (m : Nat) (idxs : List (Option Int)) (used : List Nat) (j : Nat),
        j ∈ (claimIndices m idxs used).1 →
        some (j : Int) ∈ idxs ∧ j < m ∧ j ∉ used) := by
  have hmem1 : i.toNat ∈ (claimIndices n idxs1 (usedAfter n pre [])).1 :=
    claimIndices_mem n idxs1 (usedAfter n pre []) i h1 hge hlt hfree
  have hout : assignSections n (pre ++ ((k1, idxs1) :: (mid ++ (k2, idxs2) :: post))) []
      = assignSections n pre []
        ++ (k1, (claimIndices n idxs1 (usedAfter n pre [])).1)
          :: assignSections n (mid ++ (k2, idxs2) :: post)
              (claimIndices n idxs1 (usedAfter n pre [])).2 := by
    rw [assignSections_append]
    rfl
  have hgetPos : (assignSections n
      (pre ++ ((k1, idxs1) :: (mid ++ (k2, idxs2) :: post))) [])[pre.length]?
      = some (k1, (claimIndices n idxs1 (usedAfter n pre [])).1) := by
    rw [hout, List.getElem?_append_right (by simp [assignSections_length])]
    simp [assignSections_length]
  refine ⟨hgetPos, hmem1, ?_,
    fun m idxs used j hj => claimIndices_valid m idxs used j hj⟩
  have hnd := (assignSections_flatten_nodup n
    (pre ++ ((k1, idxs1) :: (mid ++ (k2, idxs2) :: post))) []).1
  have hpair : (k1, (claimIndices n idxs1 (usedAfter n pre [])).1)
      ∈ assignSections n (pre ++ ((k1, idxs1) :: (mid ++ (k2, idxs2) :: post))) [] := by
    rw [hout]
    exact List.mem_append_right _ (List.mem_cons_self _ _)
  have hflat : i.toNat ∈ ((assignSections n
      (pre ++ ((k1, idxs1) :: (mid ++ (k2, idxs2) :: post))) []).map
        Prod.snd).flatten :=
    List.mem_flatten_of_mem (List.mem_map_of_mem Prod.snd hpair) hmem1
  exact List.count_eq_one_of_mem hnd hflat

/-- Witness for C5: the spec's scenario — twelve flattened items, index 2
claimed by both `second-story` and `third-story`; `second-story` keeps it. -/
theorem first_claim_wins_witness :
    (assignSections 12
        ([("main-story", [some 0])] ++ (("second-story", [some 2]) ::
          ([] ++ ("third-story", [some 2, some 3]) :: []))) [])[1]?
      = some ("second-story", [2]) ∧
    2 ∈ (claimIndices 12 [some 2]
          (usedAfter 12 [("main-story", [some 0])] [])).1 ∧
    ((((assignSections 12
        ([("main-story", [some 0])] ++ (("second-story", [some 2]) ::
          ([] ++ ("third-story", [some 2, some 3]) :: []))) []).map
        Prod.snd).flatten).count 2) = 1 ∧
    (∀ (m : Nat) (idxs : List (Option Int)) (used : List Nat) (j : Nat),
        j ∈ (claimIndices m idxs used).1 →
        some (j : Int) ∈ idxs ∧ j < m ∧ j ∉ used) :=
  first_claim_wins 12 [("main-story", [some 0])] [] [] "second-story"
    "third-story" [some 2] [some 2, some 3] 2
    (by decide) (by decide) (by decide) (by decide) (by decide)

/-- Dropping whitespace does nothing when the head is not whitespace. -/
theorem dropWhile_head_no (p : Char → Bool) (cs : List Char)
    (h : ∀ c, cs.head? = some c → p c = false) : cs.dropWhile p = cs := by
  cases cs with
  | nil => rfl
  | cons c rest =>
    rw [List.dropWhile_cons, h c rfl]
    simp

/-- Dropping whitespace eats a whitespace head. -/
theorem dropWhile_cons_ws (c : Char) (h : isWs c = true) (l : List Char) :
    (c :: l).dropWhile isWs = l.dropWhile isWs := by
  rw [List.dropWhile_cons, h]
  simp

/-- `strip()` is the identity on a text with non-whitespace ends. -/
theorem pyStrip_eq_self (cs : List Char) (h1 : cs.dropWhile isWs = cs)
    (h2 : cs.reverse.dropWhile isWs = cs.reverse) : pyStrip cs = cs := by
  unfold pyStrip
  rw [h1, h2, List.reverse_reverse]

/-- A text without a right brace has no brace-span tail. -/
theorem upToLastClose_of_no_close (cs : List Char) (h : cbrace ∉ cs) :
    upToLastClose cs = none := by
  induction cs with
  | nil => rfl
  | cons c rest ih =>
    simp only [List.mem_cons, not_or] at h
    simp only [upToLastClose, ih h.2]
    rw [if_neg (fun hc => h.1 hc.symm)]

/-- Appending close-brace-free text does not move the last right brace. -/
theorem upToLastClose_append (xs post : List Char) (h : cbrace ∉ post) :
    upToLastClose (xs ++ post) = upToLastClose xs := by
  induction xs with
  | nil => simpa [upToLastClose] using upToLastClose_of_no_close post h
  | cons c rest ih =>
    have e : upToLastClose ((c :: rest) ++ post)
        = match upToLastClose (rest ++ post) with
          | some t => some (c :: t)
          | none => if c = cbrace then some [c] else none := rfl
    rw [e, ih]
    rfl

/-- A text ending in a right brace is its own brace-span tail. -/
theorem upToLastClose_getLast (cs : List Char)
    (h : cs.getLast? = some cbrace) : upToLastClose cs = some cs := by
  induction cs with
  | nil => exact Option.noConfusion h
  | cons c rest ih =>
    cases rest with
    | nil =>
      simp only [List.getLast?_singleton, Option.some.injEq] at h
      simp [upToLastClose, h]
    | cons b t =>
      rw [List.getLast?_cons_cons] at h
      have e : upToLastClose (c :: b :: t)
          = match upToLastClose (b :: t) with
            | some u => some (c :: u)
            | none => if c = cbrace then some [c] else none := rfl
      rw [e, ih h]

/-- The brace-extraction regex returns exactly the span from the first left
brace to the last right brace. -/
theorem extractBrace_span (pre body post : List Char)
    (hpre : obrace ∉ pre) (hhead : body.head? = some obrace)
    (hlast : body.getLast? = some cbrace) (hpost : cbrace ∉ post) :
    extractBrace (pre ++ body ++ post) = some body := by
  induction pre with
  | nil =>
    cases body with
    | nil => exact Option.noConfusion hhead
    | cons c tail =>
      simp only [List.head?_cons, Option.some.injEq] at hhead
      subst hhead
      cases tail with
      | nil =>
        simp only [List.getLast?_singleton, Option.some.injEq] at hlast
        exact absurd hlast (by decide)
      | cons b t =>
        rw [List.getLast?_cons_cons] at hlast
        have e : extractBrace (([] ++ (obrace :: b :: t)) ++ post)
            = match upToLastClose ((b :: t) ++ post) with
              | some u => some (obrace :: u)
              | none => extractBrace ((b :: t) ++ post) := rfl
        rw [e, upToLastClose_append _ _ hpost, upToLastClose_getLast _ hlast]
  | cons c pre' ih =>
    simp only [List.mem_cons, not_or] at hpre
    simp only [List.cons_append, extractBrace]
    rw [if_neg (fun hc => hpre.1 hc.symm)]
    exact ih hpre.2

/-- C7 counterexample: a search response with JSON embedded in prose.  The
clean-up used by the category searcher, title rewriter, fallback generator and
section assigner leaves the text untouched (so `json.loads` sees the prose),
while only the related-news clean-up extracts the brace span. -/
theorem cleanup_extraction_counterexample :
    cleanupBasic "Sure! \x7b\"news\": []\x7d" = "Sure! \x7b\"news\": []\x7d" ∧
    cleanupRelated "Sure! \x7b\"news\": []\x7d" = "\x7b\"news\": []\x7d" ∧
    "Sure! \x7b\"news\": []\x7d" ≠ "\x7b\"news\": []\x7d" := by
  exact ⟨by decide, by decide, by decide⟩

/-- C7 amended: all five call sites strip a leading/trailing code fence from
the stripped response before parsing; recovery of JSON embedded in prose — the
span from the first left brace to the last right brace — happens only at the
related-news site, and when no such span exists the related-news site parses
the fence-stripped text as-is. -/
theorem cleanup_amended :
    (∀ body : List Char,
        body.dropWhile isWs = body → body.reverse.dropWhile isWs = body.reverse →
        cleanupBasicL (fenceWrap body) = body) ∧
    (∀ s pre body post : List Char,
        cleanupBasicL s = pre ++ body ++ post → obrace ∉ pre →
        body.head? = some obrace → body.getLast? = some cbrace →
        cbrace ∉ post → cleanupRelatedL s = body) ∧
    (∀ s : List Char, extractBrace (cleanupBasicL s) = none →
        cleanupRelatedL s = cleanupBasicL s) := by
  refine ⟨?_, ?_, ?_⟩
  · intro body h1 h2
    have hb : ∀ c : Char, some btick = some c → isWs c = false := by
      rintro c ⟨⟩
      decide
    have hps : pyStrip (fenceWrap body) = fenceWrap body := by
      apply pyStrip_eq_self
      · exact dropWhile_head_no _ _ (by simpa [fenceWrap] using hb)
      · apply dropWhile_head_no
        intro c hc
        rw [List.head?_reverse] at hc
        have hl : (fenceWrap body).getLast? = some btick := by
          have e : fenceWrap body
              = (btick :: btick :: btick :: 'j' :: 's' :: 'o' :: 'n' :: '\n' ::
                  body) ++ ('\n' :: btick :: btick :: btick :: []) := by
            simp [fenceWrap]
          rw [e, List.getLast?_append]
          rfl
        exact hb c (hl ▸ hc)
    have key : cleanupBasicL (fenceWrap body)
        = dropTrailingFence (List.dropWhile isWs
            ('\n' :: (body ++ '\n' :: btick :: btick :: btick :: []))) := by
      unfold cleanupBasicL
      rw [hps]
      rfl
    rw [key, dropWhile_cons_ws _ (by decide), List.dropWhile_append, h1]
    cases body with
    | nil => decide
    | cons c body' =>
      simp only [List.isEmpty_cons, Bool.false_eq_true, if_false]
      unfold dropTrailingFence
      rw [List.reverse_append,
        show (('\n' :: btick :: btick :: btick :: []) : List Char).reverse
          = [btick, btick, btick, '\n'] from rfl]
      rw [if_pos (by rfl)]
      rw [show ([btick, btick, btick, '\n'] ++ (c :: body').reverse).drop 3
          = '\n' :: (c :: body').reverse from rfl]
      rw [dropWhile_cons_ws _ (by decide), h2, List.reverse_reverse]
  · intro s pre body post heq hpre hhead hlast hpost
    simp only [cleanupRelatedL]
    rw [heq, extractBrace_span pre body post hpre hhead hlast hpost]
  · intro s hnone
    simp only [cleanupRelatedL]
    rw [hnone]

/-- Witness for the amended C7: recovery of a fenced JSON object, extraction
of a prose-embedded span, and the no-span fallback, at concrete inputs. -/
theorem cleanup_amended_witness :
    cleanupBasicL (fenceWrap ("\x7b\"a\": 1\x7d".data)) = "\x7b\"a\": 1\x7d".data ∧
    cleanupRelatedL ("Sure! \x7b\"a\": 1\x7d ok".data) = "\x7b\"a\": 1\x7d".data ∧
    cleanupRelatedL ("plain text".data) = cleanupBasicL ("plain text".data) :=
  ⟨cleanup_amended.1 "\x7b\"a\": 1\x7d".data (by decide) (by decide),
   cleanup_amended.2.1 "Sure! \x7b\"a\": 1\x7d ok".data "Sure! ".data
     "\x7b\"a\": 1\x7d".data " ok".data (by decide) (by decide) (by decide)
     (by decide) (by decide),
   cleanup_amended.2.2 "plain text".data (by decide)⟩

end NewsService
